import Mathlib

/-!
Verification of the SCMS occupancy control engine.

Shallow embedding of the backend source:
* `src/backend/src/utils/occupancy.ts` (occupancy counter),
* `src/backend/src/controllers/adminOccupancy.controller.ts`
  (`updateMaxCapacity`, `scanQRCode`, `determineLogType`),
* `src/backend/src/services/removalScore.service.ts`
  (`calculateRemovalScore`, `getActiveUsersWithRemovalScores`,
  `autoRemoveUserForCapacity`),
* `src/backend/src/controllers/user.controller.ts`
  (`SessionAutoExitService.checkAndExitExpiredSessions`),
* `src/backend/src/services/crowdForecaster.service.ts` (`forecast`).

Modelling conventions:
* JS numbers are modelled as `ℚ` (exact arithmetic); `Math.floor` is `Int.floor`,
  `Math.round` is Mathlib's `round` (both round halves up, as JS does),
  `x.toFixed(3)` followed by `parseFloat` is `round (x * 1000) / 1000`.
* Timestamps are `Date.getTime()` milliseconds as `ℚ` (as `ℕ` for the
  forecaster, which needs `getMinutes`).
* Non-negative machine counters clamped at 0 (`Math.max(0, n - 1)`) are `ℕ`
  with truncated subtraction.
* The Prisma event log is append-only and queried with
  `orderBy: \x7b timestamp: 'desc' \x7d, findFirst`; on a chronologically
  appended log this picks the last matching element in list order, which is
  how it is modelled (`List.getLast?` of a filter).
* JavaScript's `Array.prototype.sort` is stable (ES2019); a stable
  comparator sort is modelled by `List.insertionSort` (insertion from the
  right places an earlier element before later elements that compare equal).
-/

/-- Prisma enum `LogType`. -/
inductive LogKind where
  | ENTRY
  | EXIT
deriving DecidableEq, Repr

/-- Prisma model `EntryExitLog`: one immutable visit event. -/
structure LogEntry where
  userId : ℕ
  kind : LogKind
  timestamp : ℚ
  expirationTime : Option ℚ
deriving DecidableEq, Repr

/-- Prisma enum `LibraryStatusType`. -/
inductive LibStatus where
  | OPEN
  | CLOSED
  | MAINTENANCE
deriving DecidableEq, Repr

/-- Prisma model `User`, restricted to the fields the occupancy core reads.
`age` is nullable in the schema; `lastActive` is nullable. -/
structure UserProfile where
  uid : ℕ
  qrCode : ℕ
  premiumUser : Bool
  age : Option ℚ
  voluntaryExitScore : ℚ
  lastActive : Option ℚ
  createdAt : ℚ
  frequencyUsed : ℕ
deriving DecidableEq, Repr

/-- Prisma singleton `SystemConfig`. -/
structure SystemConfig where
  maxCapacity : ℕ
  currentOccupancy : ℕ
deriving DecidableEq, Repr

/-- The persisted state the occupancy engine operates on: the singleton
capacity configuration, the latest library status record, the user table and
the append-only event log. -/
structure SysState where
  maxCapacity : ℕ
  currentOccupancy : ℕ
  status : LibStatus
  users : List UserProfile
  log : List LogEntry
deriving DecidableEq, Repr

/-- `updateOccupancy` from `src/backend/src/utils/occupancy.ts`:
increment is unbounded, decrement is `Math.max(0, n - 1)` (here `ℕ`
truncated subtraction). -/
def updateOccupancyCount (occ : ℕ) (increment : Bool) : ℕ :=
  if increment then occ + 1 else occ - 1

/-- `updateMaxCapacity` from `adminOccupancy.controller.ts` (lines 118-171),
acting on an existing `SystemConfig` row.  Input outside `[1, 10000]` is
rejected (HTTP 400, modelled as `none`); otherwise the row is updated with
`currentOccupancy: Math.min(config.currentOccupancy, maxCapacity)`. -/
def updateMaxCapacity (cfg : SystemConfig) (newMax : ℕ) : Option SystemConfig :=
  if 1 ≤ newMax ∧ newMax ≤ 10000 then
    some { maxCapacity := newMax,
           currentOccupancy := min cfg.currentOccupancy newMax }
  else
    none

/-- `parseFloat(x.toFixed(3))`: round to 3 decimal places. -/
def round3 (x : ℚ) : ℚ := (round (x * 1000) : ℤ) / 1000

/-- Clamp to `[0, 1]` as `Math.min(1, Math.max(0, x))`. -/
def clamp01 (x : ℚ) : ℚ := min 1 (max 0 x)

/-- `UserRemovalData` from `removalScore.service.ts`. -/
structure UserRemovalData where
  userId : ℕ
  timeSpent : ℚ
  remainingSlotTime : ℚ
  entryOrder : ℚ
  totalUsers : ℚ
  lastActive : ℚ
  frequencyUsed : ℚ
  premiumUser : Bool
  age : ℚ
  voluntaryExitScore : ℚ
deriving DecidableEq, Repr

/-- Time-of-day factor D from `calculateRemovalScore`
(peak 9-12 and 17-20 → 1, semi-peak 8-9 and 20-21 → 0.5, else 0.2);
`currentHour` is an integer hour 0-23. -/
def timeOfDayFactor (currentHour : ℕ) : ℚ :=
  if (9 ≤ currentHour ∧ currentHour ≤ 12) ∨ (17 ≤ currentHour ∧ currentHour ≤ 20) then 1
  else if (8 ≤ currentHour ∧ currentHour < 9) ∨ (20 < currentHour ∧ currentHour ≤ 21) then 1/2
  else 1/5

/-- `calculateRemovalScore` from `removalScore.service.ts` (lines 33-87),
with the default option constants (`maxTime = 120`, `maxSlotTime = 120`,
`maxVisits = 10`, `maxAge = 70`) and explicit `today` (ms) and
`currentHour`, which is how both call sites invoke it. -/
def calculateRemovalScore (u : UserRemovalData) (today : ℚ) (currentHour : ℕ) : ℚ :=
  let T := min 1 (u.timeSpent / 120)
  let R := min 1 (u.remainingSlotTime / 120)
  let O := min 1 (u.entryOrder / max 1 u.totalUsers)
  let daysAgo := max 0 ((today - u.lastActive) / (1000 * 60 * 60 * 24))
  let L := max 0 (1 - min 1 (daysAgo / 30))
  let F := 1 - min 1 (u.frequencyUsed / 10)
  let P : ℚ := if u.premiumUser then 0 else 1
  let A := min 1 ((70 - u.age) / 70)
  let G : ℚ := 1/2
  let V := max 0 (min 1 u.voluntaryExitScore)
  let D := timeOfDayFactor currentHour
  let score :=
    (0.20 * T) + (0.10 * R) + (0.10 * O) + (0.08 * L) + (0.08 * F) +
    (0.08 * P) + (0.05 * A) + (0.04 * G) + (0.12 * (1 - V)) + (0.15 * D)
  min 1 (max 0 (round3 score))

/-- JS truthiness default `user.age || 25` used in
`getActiveUsersWithRemovalScores` (line 202): `null` (and `0`) become 25. -/
def resolveAge (age : Option ℚ) : ℚ :=
  match age with
  | none => 25
  | some a => if a = 0 then 25 else a

/-- The age-based factor A as the ranker computes it for a stored profile:
the profile's nullable age is defaulted by `user.age || 25` and then
normalized by `Math.min(1, (70 - age) / 70)` (line 57). -/
def ageFactorUsed (age : Option ℚ) : ℚ :=
  min 1 ((70 - resolveAge age) / 70)

/-- True for ENTRY events. -/
def isEntry (l : LogEntry) : Bool :=
  match l.kind with
  | .ENTRY => true
  | .EXIT => false

/-- All events of one user, in log (chronological) order. -/
def userLogs (log : List LogEntry) (uid : ℕ) : List LogEntry :=
  log.filter (fun l => l.userId == uid)

/-- The most recent ENTRY of a user: `getActiveUsersWithRemovalScores`
filters `l.type === ENTRY`, sorts by timestamp descending (stable) and takes
the first, i.e. keeps the earliest-positioned event with the maximal
timestamp.  Modelled by a fold that replaces the candidate only on a strictly
larger timestamp. -/
def latestPick (acc : Option LogEntry) (l : LogEntry) : Option LogEntry :=
  match acc with
  | none => some l
  | some m => if m.timestamp < l.timestamp then some l else some m

/-- The entry events of a user, in log order. -/
def entryLogsOf (log : List LogEntry) (uid : ℕ) : List LogEntry :=
  log.filter (fun l => l.userId == uid && isEntry l)

def latestEntryOf (log : List LogEntry) (uid : ℕ) : Option LogEntry :=
  (entryLogsOf log uid).foldl latestPick none

/-- `EXIT` event of the user strictly after time `t`
(`l.type === EXIT && l.timestamp > latestEntry.timestamp`). -/
def hasExitAfter (log : List LogEntry) (uid : ℕ) (t : ℚ) : Bool :=
  log.any (fun l => l.userId == uid && !isEntry l && decide (t < l.timestamp))

/-- One step of the currently-inside detection of
`getActiveUsersWithRemovalScores` (lines 135-162): a user is active iff
their latest ENTRY exists and has no later EXIT. -/
def activePair (log : List LogEntry) (u : UserProfile) :
    Option (UserProfile × LogEntry) :=
  match latestEntryOf log u.uid with
  | none => none
  | some e => if hasExitAfter log u.uid e.timestamp then none else some (u, e)

/-- The active users, in user-table order, each paired with their latest
ENTRY event. -/
def activeUsersOf (users : List UserProfile) (log : List LogEntry) :
    List (UserProfile × LogEntry) :=
  users.filterMap (activePair log)

/-- Boolean form of the currently-inside test; it depends only on the
user id and the log. -/
def isActiveB (log : List LogEntry) (uid : ℕ) : Bool :=
  match latestEntryOf log uid with
  | none => false
  | some e => !hasExitAfter log uid e.timestamp

/-- Number of currently-inside users. -/
def activeCount (users : List UserProfile) (log : List LogEntry) : ℕ :=
  users.countP (fun u => isActiveB log u.uid)

/-- One element of the list returned by `getActiveUsersWithRemovalScores`:
the profile, its latest entry event, the derived metrics and the score. -/
structure ScoredUser where
  profile : UserProfile
  entry : LogEntry
  timeSpent : ℚ
  remainingSlotTime : ℚ
  entryOrder : ℕ
  totalUsers : ℕ
  removalScore : ℚ
deriving DecidableEq, Repr

/-- Metrics and score for one active user (lines 170-234): minutes are
`Math.floor` of ms differences, remaining time clamps at 0, `lastActive`
falls back to `createdAt`, the nullable age defaults via `user.age || 25`. -/
def scoreActiveUser (now : ℚ) (currentHour : ℕ) (total : ℕ) (idx : ℕ)
    (p : UserProfile × LogEntry) : ScoredUser :=
  let timeSpent : ℚ := (⌊(now - p.2.timestamp) / (1000 * 60)⌋ : ℤ)
  let remaining : ℚ :=
    match p.2.expirationTime with
    | some exp => max 0 ((⌊(exp - now) / (1000 * 60)⌋ : ℤ) : ℚ)
    | none => 0
  let lastActive := p.1.lastActive.getD p.1.createdAt
  let data : UserRemovalData :=
    { userId := p.1.uid
      timeSpent := timeSpent
      remainingSlotTime := remaining
      entryOrder := (idx + 1 : ℕ)
      totalUsers := total
      lastActive := lastActive
      frequencyUsed := p.1.frequencyUsed
      premiumUser := p.1.premiumUser
      age := resolveAge p.1.age
      voluntaryExitScore := p.1.voluntaryExitScore }
  { profile := p.1
    entry := p.2
    timeSpent := timeSpent
    remainingSlotTime := remaining
    entryOrder := idx + 1
    totalUsers := total
    removalScore := calculateRemovalScore data now currentHour }

/-- `getActiveUsersWithRemovalScores` (lines 92-239): detect active users,
sort them by entry timestamp ascending (stable), attach 1-based entry order
and scores, and finally sort by removal score descending
(`sort((a, b) => b.removalScore - a.removalScore)`, stable). -/
def getActiveUsersWithRemovalScores (users : List UserProfile)
    (log : List LogEntry) (now : ℚ) (currentHour : ℕ) : List ScoredUser :=
  let active := activeUsersOf users log
  let sortedActive :=
    List.insertionSort (fun a b => a.2.timestamp ≤ b.2.timestamp) active
  let total := sortedActive.length
  let scored := sortedActive.mapIdx (scoreActiveUser now currentHour total)
  List.insertionSort (fun a b => b.removalScore ≤ a.removalScore) scored

/-- `autoRemoveUserForCapacity` (lines 244-316): a no-op unless
`currentOccupancy ≥ maxCapacity`; otherwise evict the top-ranked active
user by appending an EXIT event at `now` and decrementing the counter
(`updateOccupancy(false)`).  The boolean is the `removed` flag.  The user
profile table is not touched. -/
def autoRemoveUserForCapacity (st : SysState) (now : ℚ) (currentHour : ℕ) :
    SysState × Bool :=
  if st.currentOccupancy < st.maxCapacity then
    (st, false)
  else
    match getActiveUsersWithRemovalScores st.users st.log now currentHour with
    | [] => (st, false)
    | victim :: _ =>
        ({ st with
            log := st.log ++
              [{ userId := victim.profile.uid, kind := .EXIT,
                 timestamp := now, expirationTime := none }]
            currentOccupancy := updateOccupancyCount st.currentOccupancy false },
         true)

/-- The last event of a user in the log, as `determineLogType` queries it
(`findFirst` with `orderBy: timestamp desc`); on the chronologically
appended log this is the last matching element. -/
def lastLogOf (log : List LogEntry) (uid : ℕ) : Option LogEntry :=
  (userLogs log uid).getLast?

/-- `determineLogType` from `adminOccupancy.controller.ts` (lines 415-426):
last event EXIT or absent → ENTRY; last event ENTRY → EXIT. -/
def determineLogType (log : List LogEntry) (uid : ℕ) : LogKind :=
  match lastLogOf log uid with
  | none => .ENTRY
  | some l => match l.kind with
    | .EXIT => .ENTRY
    | .ENTRY => .EXIT

/-- The last ENTRY of a user (`findFirst` type ENTRY, timestamp desc),
used by the voluntary-exit branch of `scanQRCode`. -/
def lastEntryLogOf (log : List LogEntry) (uid : ℕ) : Option LogEntry :=
  (log.filter (fun l => l.userId == uid && isEntry l)).getLast?

/-- Update the profile row of one user in the user table. -/
def updateProfile (users : List UserProfile) (uid : ℕ)
    (f : UserProfile → UserProfile) : List UserProfile :=
  users.map (fun u => if u.uid == uid then f u else u)

/-- The cooperativeness update of the EXIT branch of `scanQRCode`
(lines 497-514): `lastActive` is set to `now`; with a voluntary exit before
the deadline the score moves toward 1 (`min(1, 0.8·old + 0.2)`), at or past
the deadline it decays toward 0.3 (`max(0, 0.95·old + 0.05·0.3)`); a missing
deadline leaves the score alone.  `user.voluntaryExitScore || 0.5` defaults
a zero (or null) stored score to 0.5. -/
def exitProfileUpdate (log : List LogEntry) (now : ℚ) (u : UserProfile) :
    UserProfile :=
  let current := if u.voluntaryExitScore = 0 then 0.5 else u.voluntaryExitScore
  match lastEntryLogOf log u.uid with
  | some e =>
      match e.expirationTime with
      | some exp =>
          if now < exp then
            { u with lastActive := some now,
                     voluntaryExitScore := min 1 (current * 0.8 + 1.0 * 0.2) }
          else
            { u with lastActive := some now,
                     voluntaryExitScore := max 0 (current * 0.95 + 0.3 * 0.05) }
      | none => { u with lastActive := some now }
  | none => { u with lastActive := some now }

/-- ENTRY count of the user in the last 30 days
(`timestamp: \x7b gte: thirtyDaysAgo \x7d`), counted before the new ENTRY is
written (lines 521-536). -/
def recentEntryCount (log : List LogEntry) (uid : ℕ) (now : ℚ) : ℕ :=
  (log.filter (fun l =>
    l.userId == uid && isEntry l &&
      decide (now - 30 * 24 * 60 * 60 * 1000 ≤ l.timestamp))).length

/-- Result of a scan: unknown QR code (HTTP 404), rejected because the
space is full and nobody could be removed (HTTP 403), or a successful
ENTRY/EXIT. -/
inductive ScanOutcome where
  | invalidQR
  | atCapacity
  | scanned (kind : LogKind)
deriving DecidableEq, Repr

/-- The EXIT half of `scanQRCode`: update the profile, append the EXIT
event at `now` and decrement the counter. -/
def exitScanStep (st : SysState) (u : UserProfile) (now : ℚ) : SysState :=
  { st with
      users := updateProfile st.users u.uid (exitProfileUpdate st.log now)
      log := st.log ++
        [{ userId := u.uid, kind := .EXIT, timestamp := now,
           expirationTime := none }]
      currentOccupancy := updateOccupancyCount st.currentOccupancy false }

/-- The ENTRY tail of `scanQRCode`: recompute `frequencyUsed`, append the
ENTRY event with deadline `now + 1h` and increment the counter. -/
def entryScanStep (st : SysState) (u : UserProfile) (now : ℚ) : SysState :=
  { st with
      users := updateProfile st.users u.uid
        (fun w => { w with frequencyUsed := recentEntryCount st.log u.uid now })
      log := st.log ++
        [{ userId := u.uid, kind := .ENTRY, timestamp := now,
           expirationTime := some (now + 60 * 60 * 1000) }]
      currentOccupancy := updateOccupancyCount st.currentOccupancy true }

/-- `scanQRCode` from `adminOccupancy.controller.ts` (lines 431-626) as a
state transition.  The token is resolved against the user table; the kind is
determined from the last log event; an ENTRY at full capacity first runs
`autoRemoveUserForCapacity` and is rejected if nothing was removed.  The
library status is never consulted. -/
def scanStep (st : SysState) (token : ℕ) (now : ℚ) (currentHour : ℕ) :
    SysState × ScanOutcome :=
  match st.users.find? (fun u => u.qrCode == token) with
  | none => (st, .invalidQR)
  | some u =>
      match determineLogType st.log u.uid with
      | .EXIT => (exitScanStep st u now, .scanned .EXIT)
      | .ENTRY =>
          if st.currentOccupancy ≥ st.maxCapacity then
            match autoRemoveUserForCapacity st now currentHour with
            | (_, false) => (st, .atCapacity)
            | (st', true) => (entryScanStep st' u now, .scanned .ENTRY)
          else
            (entryScanStep st u now, .scanned .ENTRY)

/-- One scan request: token, time (ms) and local hour. -/
structure ScanReq where
  token : ℕ
  now : ℚ
  hour : ℕ
deriving DecidableEq, Repr

/-- Run a sequence of scans, keeping only the state. -/
def runScans (st : SysState) (reqs : List ScanReq) : SysState :=
  reqs.foldl (fun s r => (scanStep s r.token r.now r.hour).1) st

/-- An expired open-session candidate of the sweeper's Prisma query:
`type: ENTRY, expirationTime: \x7b lte: now \x7d`. -/
def isExpiredEntry (now : ℚ) (l : LogEntry) : Bool :=
  isEntry l &&
    match l.expirationTime with
    | some exp => decide (exp ≤ now)
    | none => false

/-- The sweeper's work list: expired ENTRY events ordered by
`timestamp: 'desc'` (stable sort). -/
def sweepList (st : SysState) (now : ℚ) : List LogEntry :=
  List.insertionSort (fun a b => b.timestamp ≤ a.timestamp)
    (st.log.filter (isExpiredEntry now))

/-- The EXIT the sweeper synthesizes for an expired entry, timestamped at
the entry's expiration time (`entryLog.expirationTime || new Date()`). -/
def sweepExitEvent (now : ℚ) (e : LogEntry) : LogEntry :=
  { userId := e.userId, kind := .EXIT,
    timestamp := e.expirationTime.getD now, expirationTime := none }

/-- One loop iteration of `checkAndExitExpiredSessions` (lines 312-361):
re-check against the current log that the user has not exited after this
entry; if not, append the synthesized EXIT and decrement the counter.
User profiles are not touched. -/
def sweepStep (now : ℚ) (s : SysState) (e : LogEntry) : SysState :=
  if hasExitAfter s.log e.userId e.timestamp then s
  else
    { s with
        log := s.log ++ [sweepExitEvent now e]
        currentOccupancy := updateOccupancyCount s.currentOccupancy false }

/-- `checkAndExitExpiredSessions` from `user.controller.ts` (lines 280-365):
fold the per-entry step over the expired work list. -/
def checkAndExitExpiredSessions (st : SysState) (now : ℚ) : SysState :=
  (sweepList st now).foldl (sweepStep now) st

/-- Holt-Winters model state of `CrowdForecaster`
(`crowdForecaster.service.ts`); only the fields `forecast` reads.
Observation net rates are kept in arrival order. -/
structure HWState where
  level : ℚ
  trend : ℚ
  beta : ℚ
  seasonality : List ℚ
  seasonLength : ℕ
  maxCapacity : ℚ
  observationNetRates : List ℚ
deriving DecidableEq, Repr

/-- `getSeasonIndex` (lines 127-132): `timestamp.getMinutes() % seasonLength`
for a timestamp in integer milliseconds. -/
def getSeasonIndex (seasonLength : ℕ) (t : ℕ) : ℕ :=
  (t / 60000) % 60 % seasonLength

/-- The net rate the forecast extrapolates with: the last observation's,
or 0 with no observations (lines 180-182). -/
def lastNetRate (st : HWState) : ℚ :=
  (st.observationNetRates.getLast?).getD 0

/-- One forecasted occupancy (lines 174-192):
`level + trend·i + seasonality[idx] + beta·lastNetRate`, clamped to
`[0, maxCapacity]`, then `Math.round`ed. -/
def forecastValue (st : HWState) (now : ℕ) (i : ℕ) : ℤ :=
  let futureTime := now + i * 60 * 1000
  let idx := getSeasonIndex st.seasonLength futureTime
  let forecasted :=
    st.level + st.trend * i + st.seasonality.getD idx 0 +
      st.beta * lastNetRate st
  round (max 0 (min st.maxCapacity forecasted))

/-- The `forecastedOccupancy` column of `CrowdForecaster.forecast(k)`:
the loop `for (i = 1; i <= k; i++)`. -/
def forecastValues (st : HWState) (now : ℕ) (k : ℕ) : List ℤ :=
  (List.range k).map (fun j => forecastValue st now (j + 1))

/-- `calculateConfidence` (lines 210-213):
`Math.max(0.1, Math.exp(-stepAhead / 30))`. -/
noncomputable def calculateConfidence (stepAhead : ℕ) : ℝ :=
  max 0.1 (Real.exp (-(stepAhead : ℝ) / 30))

/-- The `confidence` column of `CrowdForecaster.forecast(k)`. -/
noncomputable def forecastConfidences (k : ℕ) : List ℝ :=
  (List.range k).map (fun j => calculateConfidence (j + 1))

/-- Modelled from the spec (§4.C normalization table): the removal score as
the specification words it, `Σ wᵢ·fᵢ` over the ten factors with
T `min(1, elapsed/120)`, R `min(1, remaining/120)`,
O `rank / max(1, total_inside)`, L `max(0, 1 − days_since/30)`,
F `1 − min(1, visits/10)`, P privilege, A `min(1, (70 − age)/70)`,
G `0.5`, V `(1 − voluntary_exit_score)` clamped to `[0,1]`, D time-of-day,
then rounded to 3 decimal places and clamped to `[0,1]`. -/
def specRemovalScore (u : UserRemovalData) (today : ℚ) (currentHour : ℕ) : ℚ :=
  let fT := min 1 (u.timeSpent / 120)
  let fR := min 1 (u.remainingSlotTime / 120)
  let fO := u.entryOrder / max 1 u.totalUsers
  let daysSince := max 0 ((today - u.lastActive) / (1000 * 60 * 60 * 24))
  let fL := max 0 (1 - daysSince / 30)
  let fF := 1 - min 1 (u.frequencyUsed / 10)
  let fP : ℚ := if u.premiumUser then 0 else 1
  let fA := min 1 ((70 - u.age) / 70)
  let fG : ℚ := 0.5
  let fV := clamp01 (1 - u.voluntaryExitScore)
  let fD := timeOfDayFactor currentHour
  clamp01 (round3
    (0.20 * fT + 0.10 * fR + 0.10 * fO + 0.08 * fL + 0.08 * fF +
     0.08 * fP + 0.05 * fA + 0.04 * fG + 0.12 * fV + 0.15 * fD))

/-- Modelled from the spec (§4.C tie-breaking): `a` must precede `b` in the
ranked list when `a` scores higher; on equal scores the non-privileged
(larger P factor) comes first; on equal privilege the earlier entrant comes
first.  (The spec's final `sequence_no` tie-break has no counterpart in the
code's data and is reached only when all listed keys tie.) -/
def specTieBreakLE (a b : ScoredUser) : Prop :=
  b.removalScore < a.removalScore ∨
    (b.removalScore = a.removalScore ∧
      ((a.profile.premiumUser = false ∧ b.profile.premiumUser = true) ∨
        (a.profile.premiumUser = b.profile.premiumUser ∧
          a.entry.timestamp ≤ b.entry.timestamp)))

instance (a b : ScoredUser) : Decidable (specTieBreakLE a b) := by
  unfold specTieBreakLE; infer_instance

/-! ## C1: reducing max capacity below the current occupancy -/

/-- C1 counterexample: with occupancy 5, setting max capacity to 3 stores
occupancy 3 — the counter is silently truncated, not left unchanged as the
claim states. -/
theorem C1_counterexample :
    updateMaxCapacity { maxCapacity := 10, currentOccupancy := 5 } 3 =
      some { maxCapacity := 3, currentOccupancy := 3 } ∧
    updateMaxCapacity { maxCapacity := 10, currentOccupancy := 5 } 3 ≠
      some { maxCapacity := 10, currentOccupancy := 5 } ∧
    updateMaxCapacity { maxCapacity := 10, currentOccupancy := 5 } 3 ≠
      some { maxCapacity := 3, currentOccupancy := 5 } := by
  decide

/-- C1 (amended): `updateMaxCapacity` with a valid `n` below the current
occupancy updates `max_capacity` to `n` and truncates `current_occupancy`
to `min(current_occupancy, n) = n`; it does not leave the counter
unchanged. -/
theorem C1_set_max_truncates (cfg : SystemConfig) (n : ℕ)
    (h1 : 1 ≤ n) (h2 : n ≤ 10000) (h3 : n < cfg.currentOccupancy) :
    updateMaxCapacity cfg n =
      some { maxCapacity := n, currentOccupancy := n } := by
  unfold updateMaxCapacity
  rw [if_pos ⟨h1, h2⟩, min_eq_right (le_of_lt h3)]

/-- C1 witness: the amended statement at a concrete configuration. -/
theorem C1_set_max_truncates_witness :
    (1 ≤ 3 ∧ 3 ≤ 10000 ∧
      3 < (SystemConfig.mk 10 5).currentOccupancy) ∧
    updateMaxCapacity (SystemConfig.mk 10 5) 3 =
      some { maxCapacity := 3, currentOccupancy := 3 } :=
  ⟨by decide,
   C1_set_max_truncates (SystemConfig.mk 10 5) 3 (by decide) (by decide) (by decide)⟩

/-! ## C7: age factor for a profile with unknown age -/

/-- C7 counterexample: an unknown age is defaulted to 25
(`user.age || 25`), so the A factor is `min(1, 45/70) = 9/14 ≈ 0.643`,
not the 0.5 the claim states. -/
theorem C7_counterexample :
    ageFactorUsed none = 9 / 14 ∧ (9 : ℚ) / 14 ≠ 1 / 2 := by
  norm_num [ageFactorUsed, resolveAge, min_def]

/-- C7 (amended): for an unknown age the ranker defaults the age to 25 and
uses `A = min(1, (70 - 25) / 70)`; for a known non-zero age it uses
`A = min(1, (70 - age) / 70)`. -/
theorem C7_age_factor (a : ℚ) (ha : a ≠ 0) :
    ageFactorUsed none = min 1 ((70 - 25) / 70) ∧
    ageFactorUsed (some a) = min 1 ((70 - a) / 70) := by
  refine ⟨rfl, ?_⟩
  simp only [ageFactorUsed, resolveAge]
  rw [if_neg ha]

/-- C7 witness: the amended statement at age 30. -/
theorem C7_age_factor_witness :
    ((30 : ℚ) ≠ 0) ∧
    (ageFactorUsed none = min 1 ((70 - 25) / 70) ∧
      ageFactorUsed (some 30) = min 1 ((70 - (30 : ℚ)) / 70)) :=
  ⟨by decide, C7_age_factor 30 (by decide)⟩

/-! ## C10: the capacity eviction is a guarded no-op -/

/-- C10: `autoRemoveUserForCapacity` is a no-op (`removed = false`, log and
counter untouched) whenever occupancy is below max capacity or nobody is
inside; consequently an eviction can only happen with
`currentOccupancy ≥ maxCapacity`. -/
theorem C10_eviction_guard (st : SysState) (now : ℚ) (hr : ℕ)
    (hguard : st.currentOccupancy < st.maxCapacity ∨
      activeUsersOf st.users st.log = []) :
    autoRemoveUserForCapacity st now hr = (st, false) ∧
    ((autoRemoveUserForCapacity st now hr).2 = true →
      st.maxCapacity ≤ st.currentOccupancy) := by
  have hmain : autoRemoveUserForCapacity st now hr = (st, false) := by
    unfold autoRemoveUserForCapacity
    rcases hguard with hlt | hempty
    · rw [if_pos hlt]
    · by_cases hlt : st.currentOccupancy < st.maxCapacity
      · rw [if_pos hlt]
      · rw [if_neg hlt]
        have hpipe : getActiveUsersWithRemovalScores st.users st.log now hr = [] := by
          simp [getActiveUsersWithRemovalScores, hempty]
        rw [hpipe]
  refine ⟨hmain, ?_⟩
  rw [hmain]
  simp

/-- C10 witness: concrete under-capacity state. -/
theorem C10_eviction_guard_witness :
    ((SysState.mk 5 0 .OPEN [] []).currentOccupancy <
        (SysState.mk 5 0 .OPEN [] []).maxCapacity ∨
      activeUsersOf (SysState.mk 5 0 .OPEN [] []).users
        (SysState.mk 5 0 .OPEN [] []).log = []) ∧
    (autoRemoveUserForCapacity (SysState.mk 5 0 .OPEN [] []) 0 0 =
        (SysState.mk 5 0 .OPEN [] [], false) ∧
      ((autoRemoveUserForCapacity (SysState.mk 5 0 .OPEN [] []) 0 0).2 = true →
        (SysState.mk 5 0 .OPEN [] []).maxCapacity ≤
          (SysState.mk 5 0 .OPEN [] []).currentOccupancy)) :=
  ⟨Or.inl (by decide),
   C10_eviction_guard (SysState.mk 5 0 .OPEN [] []) 0 0 (Or.inl (by decide))⟩

/-! ## C6: the removal score is the spec's weighted sum -/

/-- The code computes the cooperativeness term as `1 - clamp(v)`, the spec
as `clamp(1 - v)`; the two coincide. -/
lemma one_sub_clamp (v : ℚ) : 1 - max 0 (min 1 v) = min 1 (max 0 (1 - v)) := by
  simp only [min_def, max_def]
  split_ifs <;> linarith

/-- The code's recency factor `max(0, 1 - min(1, d/30))` equals the spec's
`max(0, 1 - d/30)` for the non-negative `d` both use. -/
lemma recency_factor_eq (d : ℚ) :
    max 0 (1 - min 1 (d / 30)) = max 0 (1 - d / 30) := by
  simp only [min_def, max_def]
  split_ifs <;> linarith

/-- C6: for an occupant whose rank does not exceed `max(1, total)` (always
the case for a rank produced by the ranker), `calculateRemovalScore` equals
the specification's weighted sum `Σ wᵢ·fᵢ` with weights
T .20, R .10, O .10, L .08, F .08, P .08, A .05, G .04, V .12, D .15,
rounded to 3 decimals and clamped to `[0,1]`. -/
theorem C6_score_formula (u : UserRemovalData) (today : ℚ) (hr : ℕ)
    (hord : u.entryOrder ≤ max 1 u.totalUsers) :
    calculateRemovalScore u today hr = specRemovalScore u today hr := by
  have hpos : (0 : ℚ) < max 1 u.totalUsers :=
    lt_of_lt_of_le one_pos (le_max_left 1 u.totalUsers)
  have hO : min 1 (u.entryOrder / max 1 u.totalUsers) =
      u.entryOrder / max 1 u.totalUsers := by
    apply min_eq_right
    rw [div_le_one hpos]
    exact hord
  have hL : max 0 (1 - min 1
        (max 0 ((today - u.lastActive) / (1000 * 60 * 60 * 24)) / 30)) =
      max 0 (1 - max 0 ((today - u.lastActive) / (1000 * 60 * 60 * 24)) / 30) :=
    recency_factor_eq _
  have hV := one_sub_clamp u.voluntaryExitScore
  simp only [calculateRemovalScore, specRemovalScore, clamp01]
  rw [hO, hL, hV]
  congr 3
  norm_num

/-- C6 witness: the formula at a concrete fully-known occupant. -/
theorem C6_score_formula_witness :
    ((UserRemovalData.mk 0 60 0 1 2 0 5 false 30 (1/2)).entryOrder ≤
        max 1 (UserRemovalData.mk 0 60 0 1 2 0 5 false 30 (1/2)).totalUsers) ∧
    calculateRemovalScore (UserRemovalData.mk 0 60 0 1 2 0 5 false 30 (1/2)) 0 10 =
      specRemovalScore (UserRemovalData.mk 0 60 0 1 2 0 5 false 30 (1/2)) 0 10 :=
  ⟨by norm_num [max_def],
   C6_score_formula (UserRemovalData.mk 0 60 0 1 2 0 5 false 30 (1/2)) 0 10
     (by norm_num [max_def])⟩

/-! ## C8: forecast values and confidences -/

/-- C8: step `j` of a `k`-step forecast is
`round(clamp(L + j·B + S[season_index(now + j·Δ)] + β·x_last, 0, max))`
and its confidence is `max(0.1, exp(-j/30))`. -/
theorem C8_forecast_formula (st : HWState) (now k j : ℕ)
    (h1 : 1 ≤ j) (h2 : j ≤ k) :
    (forecastValues st now k)[j - 1]? =
      some (round (max 0 (min st.maxCapacity
        (st.level + st.trend * j +
          st.seasonality.getD
            (getSeasonIndex st.seasonLength (now + j * 60 * 1000)) 0 +
          st.beta * lastNetRate st)))) ∧
    (forecastConfidences k)[j - 1]? =
      some (max 0.1 (Real.exp (-(j : ℝ) / 30))) := by
  have hj : j - 1 < k := by omega
  have hsucc : j - 1 + 1 = j := by omega
  constructor
  · simp only [forecastValues, List.getElem?_map, List.getElem?_range hj,
      Option.map_some', hsucc]
    rfl
  · simp only [forecastConfidences, List.getElem?_map, List.getElem?_range hj,
      Option.map_some', hsucc]
    rfl

/-- C8 witness: step 1 of a 2-step forecast on a concrete model state. -/
theorem C8_forecast_formula_witness :
    (1 ≤ 1 ∧ 1 ≤ 2) ∧
    ((forecastValues (HWState.mk 10 1 0 [] 60 50 []) 0 2)[1 - 1]? =
        some (round (max 0 (min (HWState.mk 10 1 0 [] 60 50 []).maxCapacity
          ((HWState.mk 10 1 0 [] 60 50 []).level +
            (HWState.mk 10 1 0 [] 60 50 []).trend * (1 : ℕ) +
            (HWState.mk 10 1 0 [] 60 50 []).seasonality.getD
              (getSeasonIndex (HWState.mk 10 1 0 [] 60 50 []).seasonLength
                (0 + 1 * 60 * 1000)) 0 +
            (HWState.mk 10 1 0 [] 60 50 []).beta *
              lastNetRate (HWState.mk 10 1 0 [] 60 50 []))))) ∧
      (forecastConfidences 2)[1 - 1]? =
        some (max 0.1 (Real.exp (-((1 : ℕ) : ℝ) / 30)))) :=
  ⟨⟨le_refl 1, by decide⟩,
   C8_forecast_formula (HWState.mk 10 1 0 [] 60 50 []) 0 2 1
     (le_refl 1) (by decide)⟩

/-! ## C2: scans do not consult the library status -/

/-- `autoRemoveUserForCapacity` reads everything except the status; setting
the status field commutes with it. -/
lemma autoRemove_ignores_status (st : SysState) (s : LibStatus) (now : ℚ)
    (hr : ℕ) :
    autoRemoveUserForCapacity { st with status := s } now hr =
      ({ (autoRemoveUserForCapacity st now hr).1 with status := s },
        (autoRemoveUserForCapacity st now hr).2) := by
  unfold autoRemoveUserForCapacity
  dsimp only
  by_cases h : st.currentOccupancy < st.maxCapacity
  · rw [if_pos h, if_pos h]
  · rw [if_neg h, if_neg h]
    cases hp : getActiveUsersWithRemovalScores st.users st.log now hr with
    | nil => rfl
    | cons v rest => rfl

/-- C2 (amended): `scanQRCode` never reads the library status: for every
state and every status value the outcome and all state effects (log, counter,
profiles) are the same, the status being carried through unchanged.  In
particular an ENTRY scan is processed identically whether the status is
OPEN, CLOSED or MAINTENANCE; no `RejectedClosed` path exists. -/
theorem C2_scan_ignores_status (st : SysState) (s : LibStatus) (tok : ℕ)
    (now : ℚ) (hr : ℕ) :
    scanStep { st with status := s } tok now hr =
      ({ (scanStep st tok now hr).1 with status := s },
        (scanStep st tok now hr).2) := by
  unfold scanStep
  dsimp only
  cases hf : st.users.find? (fun u => u.qrCode == tok) with
  | none => rfl
  | some u =>
    dsimp only
    cases hk : determineLogType st.log u.uid with
    | EXIT => rfl
    | ENTRY =>
      by_cases hc : st.currentOccupancy ≥ st.maxCapacity
      · rw [if_pos hc, if_pos hc, autoRemove_ignores_status]
        rcases har : autoRemoveUserForCapacity st now hr with ⟨st', b⟩
        cases b
        · rfl
        · rfl
      · rw [if_neg hc, if_neg hc]
        rfl

/-- C2 counterexample: with the library CLOSED, an ENTRY scan is not
rejected: it appends an ENTRY event and increments the counter, refuting
"returns RejectedClosed and no event is appended and the occupancy counter
is unchanged". -/
theorem C2_counterexample :
    (SysState.mk 5 0 .CLOSED
        [UserProfile.mk 1 1 false (some 30) (1/2) none 0 0] []).status ≠
      LibStatus.OPEN ∧
    (scanStep (SysState.mk 5 0 .CLOSED
        [UserProfile.mk 1 1 false (some 30) (1/2) none 0 0] []) 1 1000 10).2 =
      ScanOutcome.scanned LogKind.ENTRY ∧
    (scanStep (SysState.mk 5 0 .CLOSED
        [UserProfile.mk 1 1 false (some 30) (1/2) none 0 0] []) 1 1000 10).1.currentOccupancy = 1 ∧
    (scanStep (SysState.mk 5 0 .CLOSED
        [UserProfile.mk 1 1 false (some 30) (1/2) none 0 0] []) 1 1000 10).1.log ≠ [] := by
  refine ⟨by decide, ?_, ?_, ?_⟩ <;>
    simp [scanStep, determineLogType, lastLogOf, userLogs, entryScanStep,
      updateOccupancyCount, updateProfile, recentEntryCount]

/-! ## C5: ordering of the ranked list -/

/-- C5 (amended): the list returned by `getActiveUsersWithRemovalScores` is
sorted by removal score descending and is a permutation of the scored active
users; ties keep the stable order of the entry-time pre-sort — there is no
privilege or sequence-number tie-break. -/
theorem C5_rank_order (users : List UserProfile) (log : List LogEntry)
    (now : ℚ) (hr : ℕ) :
    List.Pairwise (fun a b : ScoredUser => b.removalScore ≤ a.removalScore)
        (getActiveUsersWithRemovalScores users log now hr) ∧
    (getActiveUsersWithRemovalScores users log now hr).Perm
      ((List.insertionSort (fun a b => a.2.timestamp ≤ b.2.timestamp)
          (activeUsersOf users log)).mapIdx
        (scoreActiveUser now hr
          (List.insertionSort (fun a b => a.2.timestamp ≤ b.2.timestamp)
              (activeUsersOf users log)).length)) := by
  haveI : IsTotal ScoredUser (fun a b => b.removalScore ≤ a.removalScore) :=
    ⟨fun a b => le_total b.removalScore a.removalScore⟩
  haveI : IsTrans ScoredUser (fun a b => b.removalScore ≤ a.removalScore) :=
    ⟨fun _ _ _ hab hbc => le_trans hbc hab⟩
  simp only [getActiveUsersWithRemovalScores]
  exact ⟨List.sorted_insertionSort _ _, List.perm_insertionSort _ _⟩

/-- Privileged occupant for the C5 counterexample: inside for 78 minutes,
all other attributes neutral. -/
def c5u1 : UserProfile := ⟨1, 1, true, some 70, 1, some 7200000, 0, 10⟩

/-- Non-privileged occupant for the C5 counterexample: just entered. -/
def c5u2 : UserProfile := ⟨2, 2, false, some 70, 1, some 7200000, 0, 10⟩

/-- Entry event of `c5u1`. -/
def c5e1 : LogEntry := ⟨1, .ENTRY, 2520000, some 3600000⟩

/-- Entry event of `c5u2`. -/
def c5e2 : LogEntry := ⟨2, .ENTRY, 7200000, some 7200000⟩

/-- C5 counterexample: both occupants score exactly 0.31, and the stable
sort keeps the privileged earlier entrant first, violating the claimed
"ties broken by privilege factor descending (non-privileged first)". -/
theorem C5_counterexample :
    ¬ List.Pairwise specTieBreakLE
        (getActiveUsersWithRemovalScores [c5u1, c5u2] [c5e1, c5e2] 7200000 3) := by
  have hpipe : getActiveUsersWithRemovalScores [c5u1, c5u2] [c5e1, c5e2] 7200000 3 =
      [ScoredUser.mk c5u1 c5e1 78 0 1 2 (31/100),
       ScoredUser.mk c5u2 c5e2 0 0 2 2 (31/100)] := by
    norm_num [getActiveUsersWithRemovalScores, activeUsersOf, activePair,
      latestEntryOf, entryLogsOf, latestPick, hasExitAfter, isEntry,
      c5u1, c5u2, c5e1, c5e2, List.insertionSort, List.orderedInsert,
      List.mapIdx_cons, List.mapIdx_nil, scoreActiveUser,
      calculateRemovalScore, resolveAge, timeOfDayFactor, round3, round_eq,
      min_def, max_def]
  rw [hpipe]
  intro hp
  have h12 : specTieBreakLE (ScoredUser.mk c5u1 c5e1 78 0 1 2 (31/100))
      (ScoredUser.mk c5u2 c5e2 0 0 2 2 (31/100)) :=
    (List.pairwise_cons.mp hp).1 _ (List.mem_singleton.mpr rfl)
  rcases h12 with hlt | ⟨_, ⟨hp1, _⟩ | ⟨hp1, _⟩⟩
  · exact absurd hlt (by norm_num)
  · exact absurd hp1 (by simp [c5u1])
  · exact absurd hp1 (by simp [c5u1, c5u2])

/-! ## C4: forced exits and the cooperativeness update -/

/-- The sweeper never modifies user profiles: the fold only touches the log
and the counter. -/
lemma sweepFold_users (now : ℚ) :
    ∀ (L : List LogEntry) (s : SysState),
      (L.foldl (sweepStep now) s).users = s.users := by
  intro L
  induction L with
  | nil => intro s; rfl
  | cons e L ih =>
      intro s
      rw [List.foldl_cons, ih (sweepStep now s e)]
      unfold sweepStep
      split <;> rfl

/-- State for the C4 counterexample: one occupant at full capacity whose
session has expired. -/
def c4State : SysState :=
  SysState.mk 1 1 .OPEN [⟨1, 1, false, some 30, 1/2, some 0, 0, 0⟩]
    [⟨1, .ENTRY, 0, some 3600000⟩]

/-- C4 counterexample: the eviction at `now = 7200000` does remove the
occupant (`removed = true`) but leaves their cooperativeness score at 0.5
and their `lastActive` at 0 — it neither applies the dampening EMA
(which would give 0.49) nor sets last_visit to now. -/
theorem C4_counterexample :
    (autoRemoveUserForCapacity c4State 7200000 3).2 = true ∧
    (autoRemoveUserForCapacity c4State 7200000 3).1.users.map
        (fun u => u.voluntaryExitScore) = [1/2] ∧
    (autoRemoveUserForCapacity c4State 7200000 3).1.users.map
        (fun u => u.lastActive) = [some 0] ∧
    (1 : ℚ)/2 ≠ max 0 ((1/2) * 0.95 + 0.3 * 0.05) ∧
    some (0 : ℚ) ≠ some (7200000 : ℚ) := by
  have hpipe : (autoRemoveUserForCapacity c4State 7200000 3).1.users =
        c4State.users ∧ (autoRemoveUserForCapacity c4State 7200000 3).2 = true := by
    norm_num [autoRemoveUserForCapacity, c4State, getActiveUsersWithRemovalScores,
      activeUsersOf, activePair, latestEntryOf, entryLogsOf, latestPick,
      hasExitAfter, isEntry, List.insertionSort, List.orderedInsert,
      List.mapIdx_cons, List.mapIdx_nil, scoreActiveUser,
      calculateRemovalScore, resolveAge, timeOfDayFactor, round3, round_eq,
      min_def, max_def, updateOccupancyCount]
  refine ⟨hpipe.2, ?_, ?_, by norm_num, by norm_num⟩ <;>
    rw [hpipe.1] <;> rfl

/-- C4 (amended): neither forced-exit path performs the exit-step profile
updates: both `autoRemoveUserForCapacity` and the sweeper leave the user
table — cooperativeness scores and `lastActive` — unchanged.  The dampening
EMA `max(0, 0.95·old + 0.05·0.3)` together with `last_visit = now` is
applied only by the voluntary scan-out path when `now` is at or past the
session deadline. -/
theorem C4_forced_exit_profiles (st : SysState) (now : ℚ) (hr : ℕ)
    (u : UserProfile) (e : LogEntry) (x : ℚ)
    (he : lastEntryLogOf st.log u.uid = some e)
    (hx : e.expirationTime = some x) (hlate : ¬ now < x) :
    (autoRemoveUserForCapacity st now hr).1.users = st.users ∧
    (checkAndExitExpiredSessions st now).users = st.users ∧
    (exitProfileUpdate st.log now u).voluntaryExitScore =
      max 0 ((if u.voluntaryExitScore = 0 then (0.5 : ℚ)
          else u.voluntaryExitScore) * 0.95 + 0.3 * 0.05) ∧
    (exitProfileUpdate st.log now u).lastActive = some now := by
  refine ⟨?_, sweepFold_users now _ st, ?_, ?_⟩
  · unfold autoRemoveUserForCapacity
    split
    · rfl
    · split <;> rfl
  · simp only [exitProfileUpdate, he, hx]
    rw [if_neg hlate]
  · simp only [exitProfileUpdate, he, hx]
    rw [if_neg hlate]

/-- C4 witness: the amended statement on the concrete expired session of
`c4State` at `now = 7200000`. -/
theorem C4_forced_exit_profiles_witness :
    (lastEntryLogOf c4State.log 1 = some ⟨1, .ENTRY, 0, some 3600000⟩ ∧
      (LogEntry.mk 1 .ENTRY 0 (some 3600000)).expirationTime = some 3600000 ∧
      ¬ (7200000 : ℚ) < 3600000) ∧
    ((autoRemoveUserForCapacity c4State 7200000 3).1.users = c4State.users ∧
      (checkAndExitExpiredSessions c4State 7200000).users = c4State.users ∧
      (exitProfileUpdate c4State.log 7200000
          ⟨1, 1, false, some 30, 1/2, some 0, 0, 0⟩).voluntaryExitScore =
        max 0 ((if (⟨1, 1, false, some 30, 1/2, some 0, 0, 0⟩ :
            UserProfile).voluntaryExitScore = 0 then (0.5 : ℚ)
          else (⟨1, 1, false, some 30, 1/2, some 0, 0, 0⟩ :
            UserProfile).voluntaryExitScore) * 0.95 + 0.3 * 0.05) ∧
      (exitProfileUpdate c4State.log 7200000
          ⟨1, 1, false, some 30, 1/2, some 0, 0, 0⟩).lastActive =
        some 7200000) :=
  ⟨⟨by norm_num [lastEntryLogOf, c4State, isEntry], rfl, by norm_num⟩,
   C4_forced_exit_profiles c4State 7200000 3
     ⟨1, 1, false, some 30, 1/2, some 0, 0, 0⟩ ⟨1, .ENTRY, 0, some 3600000⟩
     3600000 (by norm_num [lastEntryLogOf, c4State, isEntry]) rfl
     (by norm_num)⟩

/-! ## C9: sweeper idempotence -/

/-- The sweeper only appends EXIT events to the log. -/
lemma sweepFold_log (now : ℚ) :
    ∀ (L : List LogEntry) (s : SysState),
      ∃ ex : List LogEntry, (L.foldl (sweepStep now) s).log = s.log ++ ex ∧
        ∀ l ∈ ex, isEntry l = false := by
  intro L
  induction L with
  | nil => intro s; exact ⟨[], by simp, by simp⟩
  | cons e L ih =>
      intro s
      rw [List.foldl_cons]
      by_cases h : hasExitAfter s.log e.userId e.timestamp
      · have hstep : sweepStep now s e = s := by rw [sweepStep, if_pos h]
        rw [hstep]
        exact ih s
      · have hstep : sweepStep now s e =
            { s with
                log := s.log ++ [sweepExitEvent now e]
                currentOccupancy := updateOccupancyCount s.currentOccupancy false } := by
          rw [sweepStep, if_neg h]
        rw [hstep]
        rcases ih { s with
            log := s.log ++ [sweepExitEvent now e]
            currentOccupancy := updateOccupancyCount s.currentOccupancy false } with
          ⟨ex, hlog, hex⟩
        refine ⟨sweepExitEvent now e :: ex, ?_, ?_⟩
        · rw [hlog]
          simp
        · intro l hl
          rcases List.mem_cons.mp hl with rfl | hl
          · rfl
          · exact hex l hl


/-- `hasExitAfter` distributes over log concatenation. -/
lemma hasExitAfter_append (l1 l2 : List LogEntry) (uid : ℕ) (t : ℚ) :
    hasExitAfter (l1 ++ l2) uid t =
      (hasExitAfter l1 uid t || hasExitAfter l2 uid t) := by
  unfold hasExitAfter
  exact List.any_append

/-- `hasExitAfter` is monotone under appending to the log. -/
lemma hasExitAfter_mono {log ex : List LogEntry} {uid : ℕ} {t : ℚ}
    (h : hasExitAfter log uid t = true) :
    hasExitAfter (log ++ ex) uid t = true := by
  rw [hasExitAfter_append, h, Bool.true_or]

/-- After the sweeper's fold, every processed expired entry whose deadline
lies strictly after its timestamp has a later EXIT in the log. -/
lemma sweepFold_covers (now : ℚ) :
    ∀ (L : List LogEntry) (s : SysState),
      (∀ e ∈ L, ∃ x, e.expirationTime = some x ∧ e.timestamp < x) →
      ∀ e ∈ L,
        hasExitAfter ((L.foldl (sweepStep now) s).log) e.userId e.timestamp = true := by
  intro L
  induction L with
  | nil => intro s _ e he; cases he
  | cons a L ih =>
      intro s hwf e he
      rw [List.foldl_cons]
      rcases List.mem_cons.mp he with rfl | he
      · -- the head is handled by the first step and persists
        rcases sweepFold_log now L (sweepStep now s e) with ⟨ex, hlog, _⟩
        rw [hlog]
        apply hasExitAfter_mono
        by_cases h : hasExitAfter s.log e.userId e.timestamp
        · have hstep : sweepStep now s e = s := by rw [sweepStep, if_pos h]
          rw [hstep]
          exact h
        · have hstep : sweepStep now s e =
              { s with
                  log := s.log ++ [sweepExitEvent now e]
                  currentOccupancy := updateOccupancyCount s.currentOccupancy false } := by
            rw [sweepStep, if_neg h]
          rw [hstep]
          rcases hwf e (List.mem_cons_self e L) with ⟨x, hx, hlt⟩
          show hasExitAfter (s.log ++ [sweepExitEvent now e]) e.userId e.timestamp = true
          rw [hasExitAfter_append]
          have h2 : hasExitAfter [sweepExitEvent now e] e.userId e.timestamp = true := by
            simp [hasExitAfter, sweepExitEvent, isEntry, hx]
            exact hlt
          rw [h2, Bool.or_true]
      · exact ih (sweepStep now s a)
          (fun e' he' => hwf e' (List.mem_cons_of_mem a he')) e he

/-- If every entry in the work list already has a later EXIT, the fold
changes nothing. -/
lemma sweepFold_noop (now : ℚ) :
    ∀ (L : List LogEntry) (s : SysState),
      (∀ e ∈ L, hasExitAfter s.log e.userId e.timestamp = true) →
      L.foldl (sweepStep now) s = s := by
  intro L
  induction L with
  | nil => intro s _; rfl
  | cons a L ih =>
      intro s hall
      rw [List.foldl_cons, sweepStep, if_pos (hall a (List.mem_cons_self a L))]
      exact ih s (fun e he => hall e (List.mem_cons_of_mem a he))

/-- `isExpiredEntry` decomposed. -/
lemma isExpiredEntry_iff (now : ℚ) (e : LogEntry) :
    isExpiredEntry now e = true ↔
      isEntry e = true ∧ ∃ x, e.expirationTime = some x ∧ x ≤ now := by
  unfold isExpiredEntry
  cases hx : e.expirationTime with
  | none => simp
  | some x => simp [hx]

/-- A sweep does not create new expired-entry candidates. -/
lemma sweepList_after (st : SysState) (now : ℚ) :
    sweepList (checkAndExitExpiredSessions st now) now = sweepList st now := by
  unfold sweepList checkAndExitExpiredSessions
  rcases sweepFold_log now (sweepList st now) st with ⟨ex, hlog, hex⟩
  rw [show ((sweepList st now).foldl (sweepStep now) st).log = st.log ++ ex from hlog,
    List.filter_append]
  have hnil : ex.filter (isExpiredEntry now) = [] := by
    apply List.filter_eq_nil.mpr
    intro l hl
    intro hexp
    have := (isExpiredEntry_iff now l).mp hexp
    rw [hex l hl] at this
    exact Bool.false_ne_true this.1
  rw [hnil, List.append_nil]

/-- C9: the sweeper is idempotent — a second sweep at the same `now`
changes nothing (assuming every logged deadline lies strictly after its
entry timestamp, as every session written by the system satisfies), and a
sweep over a state with no open expired sessions is a no-op. -/
theorem C9_sweeper_idempotent (st : SysState) (now : ℚ)
    (hwf : ∀ e ∈ st.log, isEntry e = true → ∀ x, e.expirationTime = some x →
      e.timestamp < x) :
    checkAndExitExpiredSessions (checkAndExitExpiredSessions st now) now =
      checkAndExitExpiredSessions st now ∧
    ((∀ e ∈ st.log, isExpiredEntry now e = true →
        hasExitAfter st.log e.userId e.timestamp = true) →
      checkAndExitExpiredSessions st now = st) := by
  have hmemlist : ∀ e ∈ sweepList st now,
      e ∈ st.log ∧ isExpiredEntry now e = true := by
    intro e he
    have he' : e ∈ st.log.filter (isExpiredEntry now) :=
      ((List.perm_insertionSort _ _).mem_iff).mp he
    exact ⟨List.mem_of_mem_filter he', List.of_mem_filter he'⟩
  constructor
  · have hwf' : ∀ e ∈ sweepList st now,
        ∃ x, e.expirationTime = some x ∧ e.timestamp < x := by
      intro e he
      rcases hmemlist e he with ⟨hin, hexp⟩
      rcases (isExpiredEntry_iff now e).mp hexp with ⟨hent, x, hx, _⟩
      exact ⟨x, hx, hwf e hin hent x hx⟩
    have hcov := sweepFold_covers now (sweepList st now) st hwf'
    conv_lhs => rw [checkAndExitExpiredSessions]
    rw [sweepList_after]
    exact sweepFold_noop now _ _ (fun e he => hcov e he)
  · intro hnone
    unfold checkAndExitExpiredSessions
    apply sweepFold_noop
    intro e he
    rcases hmemlist e he with ⟨hin, hexp⟩
    exact hnone e hin hexp

/-- State for the C9 witness: one open expired session. -/
def c9State : SysState :=
  SysState.mk 10 1 .OPEN [] [⟨1, .ENTRY, 0, some 3600000⟩]

/-- C9 witness: idempotence at the concrete expired-session state. -/
theorem C9_sweeper_idempotent_witness :
    (∀ e ∈ c9State.log, isEntry e = true → ∀ x, e.expirationTime = some x →
      e.timestamp < x) ∧
    (checkAndExitExpiredSessions (checkAndExitExpiredSessions c9State 3660000)
        3660000 = checkAndExitExpiredSessions c9State 3660000 ∧
      ((∀ e ∈ c9State.log, isExpiredEntry 3660000 e = true →
          hasExitAfter c9State.log e.userId e.timestamp = true) →
        checkAndExitExpiredSessions c9State 3660000 = c9State)) :=
  ⟨by
    intro e he hent x hx
    simp only [c9State, List.mem_singleton] at he
    subst he
    simp only [LogEntry.mk.injEq] at hx
    rw [Option.some_inj] at hx
    norm_num [← hx],
   C9_sweeper_idempotent c9State 3660000 (by
    intro e he hent x hx
    simp only [c9State, List.mem_singleton] at he
    subst he
    rw [Option.some_inj] at hx
    norm_num [← hx])⟩

/-! ## C3: the occupancy invariant under scans -/

/-- Per-user chronology of the log: among one user's events, list order is
strictly increasing in timestamp (the log is appended with `new Date()`). -/
def PerUserMono (log : List LogEntry) : Prop :=
  log.Pairwise (fun a b => a.userId = b.userId → a.timestamp < b.timestamp)

/-- A consistent state (spec invariants I1 and I3 plus the well-formedness
they presuppose): per-user chronology, unique user ids, the counter equals
the number of currently-inside users, and the capacity bound. -/
structure Consistent (st : SysState) : Prop where
  mono : PerUserMono st.log
  nodup : (st.users.map (fun u => u.uid)).Nodup
  count : st.currentOccupancy = activeCount st.users st.log
  cap : st.currentOccupancy ≤ st.maxCapacity

/-- A scan time is fresh: strictly after every logged event. -/
def FreshTime (st : SysState) (now : ℚ) : Prop :=
  ∀ l ∈ st.log, l.timestamp < now

/-- Scan requests arrive at strictly increasing times after a base time. -/
def TimesOK : ℚ → List ScanReq → Prop
  | _, [] => True
  | t, r :: rs => t < r.now ∧ TimesOK r.now rs

lemma foldl_latestPick_some (L : List LogEntry) :
    ∀ a : LogEntry, ∃ m, L.foldl latestPick (some a) = some m := by
  induction L with
  | nil => intro a; exact ⟨a, rfl⟩
  | cons x L ih =>
      intro a
      rw [List.foldl_cons]
      have hstep : ∃ b, latestPick (some a) x = some b := by
        simp only [latestPick]
        by_cases hlt : a.timestamp < x.timestamp
        · exact ⟨x, by rw [if_pos hlt]⟩
        · exact ⟨a, by rw [if_neg hlt]⟩
      rcases hstep with ⟨b, hb⟩
      rw [hb]
      exact ih b

lemma foldl_latestPick_mem (L : List LogEntry) :
    ∀ (acc : Option LogEntry) (m : LogEntry),
      L.foldl latestPick acc = some m → m ∈ L ∨ acc = some m := by
  induction L with
  | nil => intro acc m h; exact Or.inr h
  | cons x L ih =>
      intro acc m h
      rw [List.foldl_cons] at h
      rcases ih (latestPick acc x) m h with hm | hm
      · exact Or.inl (List.mem_cons_of_mem x hm)
      · cases acc with
        | none =>
            simp only [latestPick] at hm
            exact Or.inl (by rw [← Option.some_inj.mp hm]; exact List.mem_cons_self x L)
        | some a =>
            simp only [latestPick] at hm
            by_cases hlt : a.timestamp < x.timestamp
            · rw [if_pos hlt] at hm
              exact Or.inl (by rw [← Option.some_inj.mp hm]; exact List.mem_cons_self x L)
            · rw [if_neg hlt] at hm
              exact Or.inr hm

lemma foldl_latestPick_acc_le (L : List LogEntry) :
    ∀ (z m : LogEntry), L.foldl latestPick (some z) = some m →
      z.timestamp ≤ m.timestamp := by
  induction L with
  | nil => intro z m h; rw [Option.some_inj.mp h]
  | cons x L ih =>
      intro z m h
      rw [List.foldl_cons] at h
      by_cases hlt : z.timestamp < x.timestamp
      · have hstep : latestPick (some z) x = some x := by
          simp only [latestPick]; rw [if_pos hlt]
        rw [hstep] at h
        exact le_of_lt (lt_of_lt_of_le hlt (ih x m h))
      · have hstep : latestPick (some z) x = some z := by
          simp only [latestPick]; rw [if_neg hlt]
        rw [hstep] at h
        exact ih z m h

lemma foldl_latestPick_ub (L : List LogEntry) :
    ∀ (acc : Option LogEntry) (m : LogEntry),
      L.foldl latestPick acc = some m → ∀ x ∈ L, x.timestamp ≤ m.timestamp := by
  induction L with
  | nil => intro acc m _ x hx; cases hx
  | cons y L ih =>
      intro acc m h x hx
      rw [List.foldl_cons] at h
      rcases List.mem_cons.mp hx with rfl | hx
      · -- the accumulated candidate after the first step is ≥ x
        have hstep : ∃ z, latestPick acc x = some z ∧ x.timestamp ≤ z.timestamp := by
          cases acc with
          | none => exact ⟨x, rfl, le_refl _⟩
          | some a =>
              simp only [latestPick]
              by_cases hlt : a.timestamp < x.timestamp
              · rw [if_pos hlt]; exact ⟨x, rfl, le_refl _⟩
              · rw [if_neg hlt]; exact ⟨a, rfl, le_of_not_lt hlt⟩
        rcases hstep with ⟨z, hz, hxz⟩
        rw [hz] at h
        exact le_trans hxz (foldl_latestPick_acc_le L z m h)
      · exact ih (latestPick acc y) m h x hx

/-- If `e` belongs to `L` and strictly dominates every other element's
timestamp, the fold picks `e`. -/
lemma foldl_latestPick_eq_max (L : List LogEntry) (e : LogEntry) (he : e ∈ L)
    (hmax : ∀ x ∈ L, x = e ∨ x.timestamp < e.timestamp) :
    L.foldl latestPick none = some e := by
  have hne : ∃ m, L.foldl latestPick none = some m := by
    cases L with
    | nil => cases he
    | cons x L =>
        rw [List.foldl_cons]
        exact foldl_latestPick_some L x
  rcases hne with ⟨m, hm⟩
  rcases foldl_latestPick_mem L none m hm with hmem | hbad
  · rcases hmax m hmem with rfl | hlt
    · exact hm
    · have := foldl_latestPick_ub L none m hm e he
      exact absurd hlt (not_lt_of_le this)
  · cases hbad

lemma mem_entryLogsOf {log : List LogEntry} {uid : ℕ} {x : LogEntry} :
    x ∈ entryLogsOf log uid ↔ x ∈ log ∧ x.userId = uid ∧ isEntry x = true := by
  unfold entryLogsOf
  rw [List.mem_filter]
  simp [Bool.and_eq_true, beq_iff_eq, and_assoc]

lemma mem_userLogs {log : List LogEntry} {uid : ℕ} {x : LogEntry} :
    x ∈ userLogs log uid ↔ x ∈ log ∧ x.userId = uid := by
  unfold userLogs
  rw [List.mem_filter]
  simp [beq_iff_eq]

lemma entryLogsOf_append_one (log : List LogEntry) (e : LogEntry) (uid : ℕ) :
    entryLogsOf (log ++ [e]) uid =
      entryLogsOf log uid ++ if e.userId == uid && isEntry e then [e] else [] := by
  unfold entryLogsOf
  rw [List.filter_append, List.filter_singleton]
  cases h : (e.userId == uid && isEntry e) <;> rfl

lemma latestEntryOf_append_exit (log : List LogEntry) (ev : LogEntry) (uid : ℕ)
    (hev : isEntry ev = false) :
    latestEntryOf (log ++ [ev]) uid = latestEntryOf log uid := by
  unfold latestEntryOf
  rw [entryLogsOf_append_one]
  rw [hev, Bool.and_false, if_neg (by simp), List.append_nil]

lemma latestEntryOf_append_other (log : List LogEntry) (ev : LogEntry) (uid : ℕ)
    (huid : ev.userId ≠ uid) :
    latestEntryOf (log ++ [ev]) uid = latestEntryOf log uid := by
  unfold latestEntryOf
  rw [entryLogsOf_append_one]
  have : (ev.userId == uid) = false := by simp [huid]
  rw [this, Bool.false_and, if_neg (by simp), List.append_nil]

lemma latestEntryOf_append_entry_self (log : List LogEntry) (ev : LogEntry)
    (hent : isEntry ev = true)
    (hfr : ∀ l ∈ log, l.userId = ev.userId → l.timestamp < ev.timestamp) :
    latestEntryOf (log ++ [ev]) ev.userId = some ev := by
  unfold latestEntryOf
  rw [entryLogsOf_append_one]
  have hcond : (ev.userId == ev.userId && isEntry ev) = true := by simp [hent]
  rw [hcond, if_pos rfl]
  apply foldl_latestPick_eq_max
  · exact List.mem_append_right _ (List.mem_singleton_self ev)
  · intro x hx
    rcases List.mem_append.mp hx with hx | hx
    · rcases mem_entryLogsOf.mp hx with ⟨hxl, hxu, _⟩
      exact Or.inr (hfr x hxl hxu)
    · exact Or.inl (List.mem_singleton.mp hx)

lemma latestEntryOf_mem {log : List LogEntry} {uid : ℕ} {m : LogEntry}
    (h : latestEntryOf log uid = some m) :
    m ∈ log ∧ m.userId = uid ∧ isEntry m = true := by
  unfold latestEntryOf at h
  rcases foldl_latestPick_mem _ _ _ h with hm | hm
  · exact mem_entryLogsOf.mp hm
  · cases hm

lemma hasExitAfter_append_one (log : List LogEntry) (ev : LogEntry) (uid : ℕ)
    (t : ℚ) :
    hasExitAfter (log ++ [ev]) uid t =
      (hasExitAfter log uid t ||
        (ev.userId == uid && !isEntry ev && decide (t < ev.timestamp))) := by
  rw [hasExitAfter_append]
  congr 1
  unfold hasExitAfter
  rw [List.any_cons, List.any_nil, Bool.or_false]

lemma isActiveB_append_other (log : List LogEntry) (ev : LogEntry) (uid : ℕ)
    (huid : ev.userId ≠ uid) :
    isActiveB (log ++ [ev]) uid = isActiveB log uid := by
  unfold isActiveB
  rw [latestEntryOf_append_other log ev uid huid]
  cases latestEntryOf log uid with
  | none => rfl
  | some m =>
      dsimp only
      rw [hasExitAfter_append_one]
      have : (ev.userId == uid) = false := by simp [huid]
      rw [this, Bool.false_and, Bool.false_and, Bool.or_false]

lemma isActiveB_append_entry_self (log : List LogEntry) (ev : LogEntry)
    (hent : isEntry ev = true)
    (hfr : ∀ l ∈ log, l.userId = ev.userId → l.timestamp < ev.timestamp) :
    isActiveB (log ++ [ev]) ev.userId = true := by
  unfold isActiveB
  rw [latestEntryOf_append_entry_self log ev hent hfr]
  dsimp only
  rw [hasExitAfter_append_one]
  have h1 : hasExitAfter log ev.userId ev.timestamp = false := by
    unfold hasExitAfter
    rw [List.any_eq_false]
    intro x hx hcon
    rw [Bool.and_eq_true, Bool.and_eq_true] at hcon
    rcases hcon with ⟨⟨hxu, _⟩, hxt⟩
    have hlt := hfr x hx (by simpa using hxu)
    rw [decide_eq_true_eq] at hxt
    exact absurd hxt (not_lt_of_lt hlt)
  have h2 : (ev.userId == ev.userId && !isEntry ev &&
      decide (ev.timestamp < ev.timestamp)) = false := by
    rw [hent]
    simp
  rw [h1, h2, Bool.or_false]
  rfl

lemma isActiveB_append_exit_self (log : List LogEntry) (ev : LogEntry)
    (hexit : isEntry ev = false)
    (hfr : ∀ l ∈ log, l.timestamp < ev.timestamp) :
    isActiveB (log ++ [ev]) ev.userId = false := by
  unfold isActiveB
  rw [latestEntryOf_append_exit log ev ev.userId hexit]
  cases hle : latestEntryOf log ev.userId with
  | none => rfl
  | some m =>
      rcases latestEntryOf_mem hle with ⟨hml, hmu, _⟩
      dsimp only
      rw [hasExitAfter_append_one]
      have : (ev.userId == ev.userId && !isEntry ev &&
          decide (m.timestamp < ev.timestamp)) = true := by
        rw [hexit]
        simp
        exact hfr m hml
      rw [this, Bool.or_true]
      rfl

lemma userLogs_pairwise {log : List LogEntry} (hmono : PerUserMono log)
    (uid : ℕ) :
    (userLogs log uid).Pairwise (fun a b => a.timestamp < b.timestamp) := by
  unfold PerUserMono at hmono
  have hp := hmono.filter (fun l => l.userId == uid)
  apply hp.imp_of_mem
  intro a b ha hb hr
  exact hr ((mem_userLogs.mp ha).2.trans (mem_userLogs.mp hb).2.symm)

lemma getLast_max {L : List LogEntry} {e : LogEntry}
    (hp : L.Pairwise (fun a b => a.timestamp < b.timestamp))
    (hl : L.getLast? = some e) :
    e ∈ L ∧ ∀ x ∈ L, x = e ∨ x.timestamp < e.timestamp := by
  induction L with
  | nil => cases hl
  | cons a L ih =>
      cases L with
      | nil =>
          have : a = e := by simpa using hl
          subst this
          exact ⟨List.mem_singleton_self a, by
            intro x hx
            exact Or.inl (List.mem_singleton.mp hx)⟩
      | cons b M =>
          rw [List.getLast?_cons_cons] at hl
          rcases ih (List.pairwise_cons.mp hp).2 hl with ⟨hmem, hmax⟩
          refine ⟨List.mem_cons_of_mem a hmem, ?_⟩
          intro x hx
          rcases List.mem_cons.mp hx with rfl | hx
          · exact Or.inr ((List.pairwise_cons.mp hp).1 e hmem)
          · exact hmax x hx

lemma determineLogType_exit {log : List LogEntry} {uid : ℕ}
    (h : determineLogType log uid = .EXIT) :
    ∃ e, lastLogOf log uid = some e ∧ e.kind = .ENTRY := by
  unfold determineLogType at h
  cases hl : lastLogOf log uid with
  | none => rw [hl] at h; cases h
  | some l =>
      rw [hl] at h
      obtain ⟨lu, lk, lt, lexp⟩ := l
      cases lk with
      | EXIT => cases h
      | ENTRY => exact ⟨_, rfl, rfl⟩

lemma determineLogType_entry {log : List LogEntry} {uid : ℕ}
    (h : determineLogType log uid = .ENTRY) :
    lastLogOf log uid = none ∨
      ∃ e, lastLogOf log uid = some e ∧ e.kind = .EXIT := by
  unfold determineLogType at h
  cases hl : lastLogOf log uid with
  | none => exact Or.inl rfl
  | some l =>
      rw [hl] at h
      obtain ⟨lu, lk, lt, lexp⟩ := l
      cases lk with
      | EXIT => exact Or.inr ⟨_, rfl, rfl⟩
      | ENTRY => cases h

lemma entryLogsOf_eq_filter_userLogs (log : List LogEntry) (uid : ℕ) :
    entryLogsOf log uid = (userLogs log uid).filter (fun l => isEntry l) := by
  unfold entryLogsOf userLogs
  rw [List.filter_filter]
  apply List.filter_congr
  intro x _
  exact Bool.and_comm _ _

lemma isActive_of_kind_exit {log : List LogEntry} {uid : ℕ}
    (hmono : PerUserMono log) (hk : determineLogType log uid = .EXIT) :
    isActiveB log uid = true := by
  rcases determineLogType_exit hk with ⟨e, hlast, hkind⟩
  have hUL := getLast_max (userLogs_pairwise hmono uid) hlast
  rcases mem_userLogs.mp hUL.1 with ⟨hel, heu⟩
  have hent : isEntry e = true := by unfold isEntry; rw [hkind]
  have hmemE : e ∈ entryLogsOf log uid := mem_entryLogsOf.mpr ⟨hel, heu, hent⟩
  have hmaxE : ∀ x ∈ entryLogsOf log uid, x = e ∨ x.timestamp < e.timestamp := by
    intro x hx
    rcases mem_entryLogsOf.mp hx with ⟨hxl, hxu, _⟩
    exact hUL.2 x (mem_userLogs.mpr ⟨hxl, hxu⟩)
  have hle : latestEntryOf log uid = some e :=
    foldl_latestPick_eq_max _ _ hmemE hmaxE
  unfold isActiveB
  rw [hle]
  dsimp only
  have hnoexit : hasExitAfter log uid e.timestamp = false := by
    unfold hasExitAfter
    rw [List.any_eq_false]
    intro x hx hcon
    rw [Bool.and_eq_true, Bool.and_eq_true] at hcon
    rcases hcon with ⟨⟨hxu, hxe⟩, hxt⟩
    rw [decide_eq_true_eq] at hxt
    rcases hUL.2 x (mem_userLogs.mpr ⟨hx, by simpa using hxu⟩) with rfl | hlt
    · rw [hent] at hxe; cases hxe
    · exact absurd hxt (not_lt_of_lt hlt)
  rw [hnoexit]
  rfl

lemma isActive_of_kind_entry {log : List LogEntry} {uid : ℕ}
    (hmono : PerUserMono log) (hk : determineLogType log uid = .ENTRY) :
    isActiveB log uid = false := by
  rcases determineLogType_entry hk with hnone | ⟨x, hlast, hkind⟩
  · -- no events at all for this user
    have hempty : userLogs log uid = [] := by
      unfold lastLogOf at hnone
      exact List.getLast?_eq_none.mp hnone
    have : entryLogsOf log uid = [] := by
      rw [entryLogsOf_eq_filter_userLogs, hempty]
      rfl
    unfold isActiveB latestEntryOf
    rw [this]
    rfl
  · have hxexit : isEntry x = false := by unfold isEntry; rw [hkind]
    have hUL := getLast_max (userLogs_pairwise hmono uid) hlast
    rcases mem_userLogs.mp hUL.1 with ⟨hxl, hxu⟩
    unfold isActiveB
    cases hle : latestEntryOf log uid with
    | none => rfl
    | some m =>
        dsimp only
        rcases latestEntryOf_mem hle with ⟨hml, hmu, hment⟩
        have hmx : m ≠ x := by
          intro hcon
          rw [hcon, hxexit] at hment
          cases hment
        rcases hUL.2 m (mem_userLogs.mpr ⟨hml, hmu⟩) with rfl | hlt
        · exact absurd rfl hmx
        · have : hasExitAfter log uid m.timestamp = true := by
            unfold hasExitAfter
            rw [List.any_eq_true]
            refine ⟨x, hxl, ?_⟩
            rw [Bool.and_eq_true, Bool.and_eq_true]
            exact ⟨⟨by simpa using hxu, by rw [hxexit]; rfl⟩,
              decide_eq_true hlt⟩
          rw [this]
          rfl

lemma activeCount_congr {users : List UserProfile} {log1 log2 : List LogEntry}
    (h : ∀ u ∈ users, isActiveB log1 u.uid = isActiveB log2 u.uid) :
    activeCount users log1 = activeCount users log2 := by
  unfold activeCount
  apply List.countP_congr
  intro u hu
  rw [h u hu]

/-- Turning exactly one user id from inactive to active raises the count by
one, provided user ids are unique. -/
lemma activeCount_flip {users : List UserProfile} {log1 log2 : List LogEntry}
    {uid : ℕ}
    (hnd : (users.map (fun u => u.uid)).Nodup)
    (hmem : ∃ u ∈ users, u.uid = uid)
    (hoth : ∀ u ∈ users, u.uid ≠ uid → isActiveB log2 u.uid = isActiveB log1 u.uid)
    (hoff : isActiveB log1 uid = false) (hon : isActiveB log2 uid = true) :
    activeCount users log2 = activeCount users log1 + 1 := by
  unfold activeCount
  induction users with
  | nil => rcases hmem with ⟨u, hu, _⟩; cases hu
  | cons a us ih =>
      rw [List.map_cons, List.nodup_cons] at hnd
      rw [List.countP_cons, List.countP_cons]
      rcases hmem with ⟨u, hu, huid⟩
      rcases List.mem_cons.mp hu with rfl | hu
      · -- the head carries the flipped id; the tail is unaffected
        have htail : ∀ v ∈ us, v.uid ≠ uid := by
          intro v hv heq
          exact hnd.1 (huid ▸ heq ▸ List.mem_map.mpr ⟨v, hv, rfl⟩)
        have heq : List.countP (fun v => isActiveB log2 v.uid) us =
            List.countP (fun v => isActiveB log1 v.uid) us := by
          apply List.countP_congr
          intro v hv
          rw [hoth v (List.mem_cons_of_mem _ hv) (htail v hv)]
        rw [heq, huid, hon, hoff]
        simp
      · have hane : u.uid ∈ us.map (fun w => w.uid) :=
          List.mem_map.mpr ⟨u, hu, rfl⟩
        have haneq : a.uid ≠ uid := by
          intro heq
          exact hnd.1 (heq ▸ huid ▸ hane)
        have hihyp := ih hnd.2 ⟨u, hu, huid⟩
          (fun v hv hne => hoth v (List.mem_cons_of_mem _ hv) hne)
        rw [hihyp, hoth a (List.mem_cons_self _ _) haneq]
        split <;> omega

lemma updateProfile_map_uid (users : List UserProfile) (uid : ℕ)
    (f : UserProfile → UserProfile) (hf : ∀ u, (f u).uid = u.uid) :
    (updateProfile users uid f).map (fun u => u.uid) =
      users.map (fun u => u.uid) := by
  unfold updateProfile
  rw [List.map_map]
  apply List.map_congr_left
  intro u _
  by_cases h : u.uid == uid
  · simp only [Function.comp, h, if_pos]
    exact hf u
  · simp only [Function.comp]
    rw [if_neg h]

lemma activeCount_updateProfile (users : List UserProfile)
    (log : List LogEntry) (uid : ℕ) (f : UserProfile → UserProfile)
    (hf : ∀ u, (f u).uid = u.uid) :
    activeCount (updateProfile users uid f) log = activeCount users log := by
  unfold activeCount updateProfile
  rw [List.countP_map]
  apply List.countP_congr
  intro u _
  simp only [Function.comp]
  by_cases h : u.uid == uid
  · rw [if_pos h, hf u]
  · rw [if_neg h]

lemma activeCount_pos {users : List UserProfile} {log : List LogEntry}
    {u : UserProfile} (hu : u ∈ users) (ha : isActiveB log u.uid = true) :
    1 ≤ activeCount users log := by
  unfold activeCount
  exact List.countP_pos_iff.mpr ⟨u, hu, ha⟩

lemma perUserMono_append {log : List LogEntry} (hm : PerUserMono log)
    (ev : LogEntry)
    (hfr : ∀ l ∈ log, l.userId = ev.userId → l.timestamp < ev.timestamp) :
    PerUserMono (log ++ [ev]) := by
  unfold PerUserMono at *
  rw [List.pairwise_append]
  refine ⟨hm, List.pairwise_singleton _ _, ?_⟩
  intro a ha b hb heq
  rw [List.mem_singleton.mp hb] at heq ⊢
  exact hfr a ha heq

lemma activePair_eq_some {log : List LogEntry} {a : UserProfile}
    {p : UserProfile × LogEntry} (h : activePair log a = some p) :
    p.1 = a ∧ isActiveB log a.uid = true := by
  unfold activePair at h
  cases hle : latestEntryOf log a.uid with
  | none => rw [hle] at h; cases h
  | some e =>
      rw [hle] at h
      dsimp only at h
      by_cases hex : hasExitAfter log a.uid e.timestamp = true
      · rw [if_pos hex] at h; cases h
      · rw [if_neg hex] at h
        refine ⟨by rw [← Option.some_inj.mp h], ?_⟩
        unfold isActiveB
        rw [hle]
        dsimp only
        rw [Bool.not_eq_true] at hex
        rw [hex]
        rfl

lemma pipeline_mem_active {users : List UserProfile} {log : List LogEntry}
    {now : ℚ} {hr : ℕ} {v : ScoredUser}
    (hv : v ∈ getActiveUsersWithRemovalScores users log now hr) :
    v.profile ∈ users ∧ isActiveB log v.profile.uid = true := by
  unfold getActiveUsersWithRemovalScores at hv
  have h1 := (List.perm_insertionSort _ _).mem_iff.mp hv
  rw [List.mapIdx_eq_enum_map] at h1
  obtain ⟨⟨i, p⟩, hip, hvp⟩ := List.mem_map.mp h1
  obtain ⟨hi, hp⟩ := List.mem_enum hip
  have hpmem : p ∈ List.insertionSort
      (fun a b => a.2.timestamp ≤ b.2.timestamp) (activeUsersOf users log) := by
    rw [hp]
    exact List.getElem_mem hi
  have hact : p ∈ activeUsersOf users log :=
    (List.perm_insertionSort _ _).mem_iff.mp hpmem
  obtain ⟨a, ha, hpa⟩ := List.mem_filterMap.mp hact
  obtain ⟨hp1, hactive⟩ := activePair_eq_some hpa
  have hprof : v.profile = p.1 := by rw [← hvp]; rfl
  rw [hprof, hp1]
  exact ⟨ha, hactive⟩

lemma exitProfileUpdate_uid (log : List LogEntry) (now : ℚ) (u : UserProfile) :
    (exitProfileUpdate log now u).uid = u.uid := by
  unfold exitProfileUpdate
  cases lastEntryLogOf log u.uid with
  | none => rfl
  | some e =>
      dsimp only
      cases e.expirationTime with
      | none => rfl
      | some x =>
          dsimp only
          split <;> rfl

lemma exitScanStep_consistent {st : SysState} {u : UserProfile} {now : ℚ}
    (hc : Consistent st) (hf : FreshTime st now) (hu : u ∈ st.users)
    (hact : isActiveB st.log u.uid = true) :
    Consistent (exitScanStep st u now) ∧
      ∀ l ∈ (exitScanStep st u now).log, l.timestamp ≤ now := by
  have hoff : isActiveB (st.log ++
      [{ userId := u.uid, kind := .EXIT, timestamp := now,
         expirationTime := none }]) u.uid = false :=
    isActiveB_append_exit_self st.log _ rfl (fun l hl => hf l hl)
  have hflip : activeCount st.users st.log =
      activeCount st.users (st.log ++
        [{ userId := u.uid, kind := .EXIT, timestamp := now,
           expirationTime := none }]) + 1 := by
    refine @activeCount_flip st.users _ st.log u.uid hc.nodup ⟨u, hu, rfl⟩
      ?_ hoff hact
    intro w _ hwne
    exact (isActiveB_append_other st.log _ w.uid (Ne.symm hwne)).symm
  have hcnt : activeCount (exitScanStep st u now).users
      (exitScanStep st u now).log =
      activeCount st.users (st.log ++
        [{ userId := u.uid, kind := .EXIT, timestamp := now,
           expirationTime := none }]) :=
    activeCount_updateProfile st.users _ u.uid _
      (exitProfileUpdate_uid st.log now)
  have hpos : 1 ≤ st.currentOccupancy := by
    rw [hc.count]
    exact activeCount_pos hu hact
  refine ⟨⟨?_, ?_, ?_, ?_⟩, ?_⟩
  · exact perUserMono_append hc.mono _ (fun l hl _ => hf l hl)
  · show ((updateProfile st.users u.uid (exitProfileUpdate st.log now)).map
        (fun u => u.uid)).Nodup
    rw [updateProfile_map_uid st.users u.uid _ (exitProfileUpdate_uid st.log now)]
    exact hc.nodup
  · show updateOccupancyCount st.currentOccupancy false = _
    rw [hcnt]
    have h0 := hc.count
    unfold updateOccupancyCount
    rw [if_neg (by decide : ¬ (false = true))]
    omega
  · exact le_trans (Nat.sub_le _ _) hc.cap
  · intro l hl
    rcases List.mem_append.mp hl with hl | hl
    · exact le_of_lt (hf l hl)
    · rw [List.mem_singleton.mp hl]

lemma entryScanStep_consistent {st : SysState} {u : UserProfile} {now : ℚ}
    (hc : Consistent st) (hfl : ∀ l ∈ st.log, l.timestamp ≤ now)
    (hfru : ∀ l ∈ st.log, l.userId = u.uid → l.timestamp < now)
    (hu : u ∈ st.users)
    (hinact : isActiveB st.log u.uid = false)
    (hcap : st.currentOccupancy < st.maxCapacity) :
    Consistent (entryScanStep st u now) ∧
      ∀ l ∈ (entryScanStep st u now).log, l.timestamp ≤ now := by
  have hon : isActiveB (st.log ++
      [{ userId := u.uid, kind := .ENTRY, timestamp := now,
         expirationTime := some (now + 60 * 60 * 1000) }]) u.uid = true :=
    isActiveB_append_entry_self st.log _ rfl hfru
  have hflip : activeCount st.users (st.log ++
      [{ userId := u.uid, kind := .ENTRY, timestamp := now,
         expirationTime := some (now + 60 * 60 * 1000) }]) =
      activeCount st.users st.log + 1 := by
    refine @activeCount_flip st.users st.log _ u.uid hc.nodup ⟨u, hu, rfl⟩
      ?_ hinact hon
    intro w _ hwne
    exact isActiveB_append_other st.log _ w.uid (Ne.symm hwne)
  have hcnt : activeCount (entryScanStep st u now).users
      (entryScanStep st u now).log =
      activeCount st.users (st.log ++
        [{ userId := u.uid, kind := .ENTRY, timestamp := now,
           expirationTime := some (now + 60 * 60 * 1000) }]) :=
    activeCount_updateProfile st.users _ u.uid
      (fun w => { w with frequencyUsed := recentEntryCount st.log u.uid now })
      (fun w => rfl)
  refine ⟨⟨?_, ?_, ?_, ?_⟩, ?_⟩
  · exact perUserMono_append hc.mono _ (fun l hl hlu => hfru l hl hlu)
  · show ((updateProfile st.users u.uid
        (fun w => { w with
          frequencyUsed := recentEntryCount st.log u.uid now })).map
        (fun u => u.uid)).Nodup
    rw [updateProfile_map_uid st.users u.uid
      (fun w => { w with frequencyUsed := recentEntryCount st.log u.uid now })
      (fun w => rfl)]
    exact hc.nodup
  · show updateOccupancyCount st.currentOccupancy true = _
    rw [hcnt, hflip, ← hc.count]
    rfl
  · show st.currentOccupancy + 1 ≤ st.maxCapacity
    omega
  · intro l hl
    rcases List.mem_append.mp hl with hl | hl
    · exact hfl l hl
    · rw [List.mem_singleton.mp hl]

lemma autoRemove_success {st st' : SysState} {now : ℚ} {hr : ℕ}
    (hc : Consistent st) (hf : FreshTime st now)
    (h : autoRemoveUserForCapacity st now hr = (st', true)) :
    Consistent st' ∧ st'.users = st.users ∧
      st'.maxCapacity = st.maxCapacity ∧
      st'.currentOccupancy + 1 = st.currentOccupancy ∧
      (∀ l ∈ st'.log, l.timestamp ≤ now) ∧
      (∀ uid, isActiveB st.log uid = false → isActiveB st'.log uid = false ∧
        (∀ l ∈ st'.log, l.userId = uid → l.timestamp < now)) := by
  unfold autoRemoveUserForCapacity at h
  by_cases hlt : st.currentOccupancy < st.maxCapacity
  · rw [if_pos hlt] at h
    simp at h
  · rw [if_neg hlt] at h
    cases hp : getActiveUsersWithRemovalScores st.users st.log now hr with
    | nil => rw [hp] at h; simp at h
    | cons v rest =>
        rw [hp] at h
        have hst' : st' =
            { st with
                log := st.log ++
                  [{ userId := v.profile.uid, kind := .EXIT,
                     timestamp := now, expirationTime := none }]
                currentOccupancy :=
                  updateOccupancyCount st.currentOccupancy false } :=
          (congrArg Prod.fst h).symm
        obtain ⟨hvmem, hvact⟩ := pipeline_mem_active
          (show v ∈ getActiveUsersWithRemovalScores st.users st.log now hr by
            rw [hp]; exact List.mem_cons_self _ _)
        have hoff : isActiveB (st.log ++
            [{ userId := v.profile.uid, kind := .EXIT, timestamp := now,
               expirationTime := none }]) v.profile.uid = false :=
          isActiveB_append_exit_self st.log _ rfl (fun l hl => hf l hl)
        have hflip : activeCount st.users st.log =
            activeCount st.users (st.log ++
              [{ userId := v.profile.uid, kind := .EXIT, timestamp := now,
                 expirationTime := none }]) + 1 := by
          refine @activeCount_flip st.users _ st.log v.profile.uid hc.nodup
            ⟨v.profile, hvmem, rfl⟩ ?_ hoff hvact
          intro w _ hwne
          exact (isActiveB_append_other st.log _ w.uid (Ne.symm hwne)).symm
        have hpos : 1 ≤ st.currentOccupancy := by
          rw [hc.count]
          exact activeCount_pos hvmem hvact
        have hcount := hc.count
        subst hst'
        refine ⟨⟨?_, hc.nodup, ?_, ?_⟩, rfl, rfl, ?_, ?_, ?_⟩
        · exact perUserMono_append hc.mono _ (fun l hl _ => hf l hl)
        · show updateOccupancyCount st.currentOccupancy false =
            activeCount st.users (st.log ++
              [{ userId := v.profile.uid, kind := .EXIT, timestamp := now,
                 expirationTime := none }])
          unfold updateOccupancyCount
          rw [if_neg (by decide : ¬ (false = true))]
          omega
        · exact le_trans (Nat.sub_le _ _) hc.cap
        · show updateOccupancyCount st.currentOccupancy false + 1 = _
          unfold updateOccupancyCount
          rw [if_neg (by decide : ¬ (false = true))]
          omega
        · intro l hl
          rcases List.mem_append.mp hl with hl | hl
          · exact le_of_lt (hf l hl)
          · rw [List.mem_singleton.mp hl]
        · intro uid huid
          have hne : v.profile.uid ≠ uid := by
            intro heq
            rw [heq] at hvact
            rw [hvact] at huid
            cases huid
          constructor
          · show isActiveB (st.log ++ _) uid = false
            rw [isActiveB_append_other st.log _ uid hne]
            exact huid
          · intro l hl hlu
            rcases List.mem_append.mp hl with hl | hl
            · exact hf l hl
            · rw [List.mem_singleton.mp hl] at hlu
              exact absurd hlu hne

lemma scanStep_preserves (st : SysState) (tok : ℕ) (now : ℚ) (hr : ℕ)
    (hc : Consistent st) (hf : FreshTime st now) :
    Consistent (scanStep st tok now hr).1 ∧
      (scanStep st tok now hr).1.maxCapacity = st.maxCapacity ∧
      ∀ l ∈ (scanStep st tok now hr).1.log, l.timestamp ≤ now := by
  unfold scanStep
  cases hfind : st.users.find? (fun u => u.qrCode == tok) with
  | none => exact ⟨hc, rfl, fun l hl => le_of_lt (hf l hl)⟩
  | some u =>
      have hu : u ∈ st.users := List.mem_of_find?_eq_some hfind
      dsimp only
      cases hk : determineLogType st.log u.uid with
      | EXIT =>
          have hact := isActive_of_kind_exit hc.mono hk
          obtain ⟨h1, h2⟩ := exitScanStep_consistent hc hf hu hact
          exact ⟨h1, rfl, h2⟩
      | ENTRY =>
          have hinact := isActive_of_kind_entry hc.mono hk
          by_cases hcap : st.currentOccupancy ≥ st.maxCapacity
          · rw [if_pos hcap]
            rcases har : autoRemoveUserForCapacity st now hr with ⟨st', b⟩
            cases b with
            | false => exact ⟨hc, rfl, fun l hl => le_of_lt (hf l hl)⟩
            | true =>
                obtain ⟨hc', husers, hmax, hocc, hbound, hspec⟩ :=
                  autoRemove_success hc hf har
                obtain ⟨hoffu, hfru⟩ := hspec u.uid hinact
                have hu' : u ∈ st'.users := by rw [husers]; exact hu
                have hcap' : st'.currentOccupancy < st'.maxCapacity := by
                  have hc2 := hc.cap
                  rw [hmax]
                  omega
                obtain ⟨h1, h2⟩ :=
                  entryScanStep_consistent hc' hbound hfru hu' hoffu hcap'
                refine ⟨h1, ?_, h2⟩
                show (entryScanStep st' u now).maxCapacity = st.maxCapacity
                rw [show (entryScanStep st' u now).maxCapacity =
                  st'.maxCapacity from rfl, hmax]
          · rw [if_neg hcap]
            have hcap' : st.currentOccupancy < st.maxCapacity :=
              lt_of_not_ge hcap
            obtain ⟨h1, h2⟩ := entryScanStep_consistent hc
              (fun l hl => le_of_lt (hf l hl))
              (fun l hl _ => hf l hl) hu hinact hcap'
            exact ⟨h1, rfl, h2⟩

lemma runScans_consistent :
    ∀ (reqs : List ScanReq) (st : SysState) (t0 : ℚ),
      Consistent st → (∀ l ∈ st.log, l.timestamp ≤ t0) → TimesOK t0 reqs →
      Consistent (runScans st reqs) := by
  intro reqs
  induction reqs with
  | nil =>
      intro st t0 hc _ _
      exact hc
  | cons r rs ih =>
      intro st t0 hc hb ht
      have hf : FreshTime st r.now := fun l hl => lt_of_le_of_lt (hb l hl) ht.1
      obtain ⟨h1, _, h2⟩ := scanStep_preserves st r.token r.now r.hour hc hf
      exact ih _ r.now h1 (fun l hl => h2 l hl) ht.2

/-- C3: from a consistent state (counter = number inside, counter ≤ max,
chronological log, unique user ids), any sequence of scans at increasing
times keeps `0 ≤ current_occupancy ≤ max_capacity` — the EXIT decrement is
clamped at 0 (the counter is a natural number decremented with
`Math.max(0, n-1)`), and an ENTRY at full capacity increments only after a
successful eviction has decremented. -/
theorem C3_occupancy_invariant (st : SysState) (t0 : ℚ) (reqs : List ScanReq)
    (hc : Consistent st) (hb : ∀ l ∈ st.log, l.timestamp ≤ t0)
    (ht : TimesOK t0 reqs) :
    (runScans st reqs).currentOccupancy ≤ (runScans st reqs).maxCapacity :=
  (runScans_consistent reqs st t0 hc hb ht).cap

/-- C3 witness: an entry scan followed by an exit scan from an empty
consistent one-user state. -/
theorem C3_occupancy_invariant_witness :
    (Consistent (SysState.mk 1 0 .OPEN
        [UserProfile.mk 1 1 false (some 30) (1/2) none 0 0] []) ∧
      (∀ l ∈ (SysState.mk 1 0 .OPEN
        [UserProfile.mk 1 1 false (some 30) (1/2) none 0 0]
        [] : SysState).log, l.timestamp ≤ (0 : ℚ)) ∧
      TimesOK 0 [ScanReq.mk 1 1000 10, ScanReq.mk 1 2000 10]) ∧
    (runScans (SysState.mk 1 0 .OPEN
        [UserProfile.mk 1 1 false (some 30) (1/2) none 0 0] [])
        [ScanReq.mk 1 1000 10, ScanReq.mk 1 2000 10]).currentOccupancy ≤
      (runScans (SysState.mk 1 0 .OPEN
        [UserProfile.mk 1 1 false (some 30) (1/2) none 0 0] [])
        [ScanReq.mk 1 1000 10, ScanReq.mk 1 2000 10]).maxCapacity := by
  have hcW : Consistent (SysState.mk 1 0 .OPEN
      [UserProfile.mk 1 1 false (some 30) (1/2) none 0 0] []) := by
    refine ⟨List.Pairwise.nil, by simp, ?_, by decide⟩
    rfl
  have hbW : ∀ l ∈ (SysState.mk 1 0 .OPEN
      [UserProfile.mk 1 1 false (some 30) (1/2) none 0 0]
      [] : SysState).log, l.timestamp ≤ (0 : ℚ) := by
    intro l hl
    cases hl
  have htW : TimesOK 0 [ScanReq.mk 1 1000 10, ScanReq.mk 1 2000 10] :=
    ⟨by norm_num, by norm_num, trivial⟩
  exact ⟨⟨hcW, hbW, htW⟩,
    C3_occupancy_invariant _ 0 _ hcW hbW htW⟩
